import Mathlib

/-!
Shallow embedding of the graph-circuit simulation kernel
(`CircuitData`, `NodeTerminal`, `WireNode`, the `Node` kinds, `SysCircuit`)
together with the example driver loop from `main`.

Modelling conventions:
* `std::vector<std::shared_ptr<...>>` becomes `List (Option ...)`; the
  default-constructed null `shared_ptr` stored at index 0 of both arena
  collections is `none`.
* `uint32_t` values and identities become `Nat`; where the source's
  `uint32_t` arithmetic can wrap, the wrap is written explicitly as
  `% 4294967296`.
* Fallible steps return `Except Err`.  `Err.outOfRange` models the
  `std::out_of_range` exception thrown by `std::vector::at`; the `ub*`
  constructors mark points where the C++ has undefined behaviour
  (dereferencing the null pointer at reserved index 0, `std::array`
  `operator[]` out of bounds, and reads/writes through the unchecked
  `static_pointer_cast`).
* The printer's `std::cout` output is modelled by returning the printed
  values; the driver collects them.
-/

namespace GraphCircuits

/-- The wire value types used by the example nodes: `WireNode<bool>` and
`WireNode<uint32_t>`. -/
inductive VTy : Type
  | bool
  | u32
deriving DecidableEq

/-- A runtime wire value. -/
inductive Val : Type
  | vb (b : Bool)
  | vu (n : Nat)
deriving DecidableEq

/-- Value-initialisation `DATA_T m_value{}`: `false` for `bool`, `0` for
`uint32_t`. -/
def VTy.defaultVal : VTy → Val
  | .bool => .vb false
  | .u32 => .vu 0

/-- The static type of a stored value. -/
def Val.tyOf : Val → VTy
  | .vb _ => .bool
  | .vu _ => .u32

/-- `NodeTerminal`: `m_parentID` (owning node, defaults to `nullNode_t = 0`)
and `m_id` (attached wire, defaults to `nullEdge_t = 0`). -/
structure NodeTerminal where
  m_parentID : Nat := 0
  m_id : Nat := 0
deriving DecidableEq

/-- `WireNode<DATA_T>`: one value plus the producer (`m_in`) and consumer
(`m_out`) node identities. -/
structure WireNode where
  m_value : Val
  m_in : Nat := 0
  m_out : Nat := 0
deriving DecidableEq

/-- The concrete node kinds of the source, with their fields. -/
inductive Node : Type
  | constant (m_state : Bool) (m_output : NodeTerminal)
  | andGate (m_inA m_inB m_output : NodeTerminal) (m_outVal : Bool)
  | rom (m_data : List Nat) (m_pc : Nat) (m_output : NodeTerminal)
  | printer (ty : VTy) (m_input : NodeTerminal)
deriving DecidableEq

/-- The arena: `m_edges` and `m_nodes`, each constructed holding one null
pointer at index 0. -/
structure CircuitData where
  m_edges : List (Option WireNode) := [none]
  m_nodes : List (Option Node) := [none]
deriving DecidableEq

/-- Failure modes of the embedded code.  `outOfRange` is the
`std::out_of_range` thrown by `.at`; the `ub*` constructors mark undefined
behaviour in the C++ source. -/
inductive Err : Type
  | outOfRange
  | ubNull
  | ubIndex
  | ubType
deriving DecidableEq

/-- `NodeTerminal::get`: `rData.m_edges.at(m_id)` followed by the
dereference of the resulting pointer.  `.at` throws when the id is out of
range; the element at the reserved index 0 is the null pointer, whose
dereference is undefined behaviour (`ubNull`). -/
def NodeTerminal.get (t : NodeTerminal) (d : CircuitData) : Except Err WireNode :=
  match d.m_edges.get? t.m_id with
  | none => .error .outOfRange
  | some none => .error .ubNull
  | some (some w) => .ok w

/-- Reading `m_value` through a `NodeTerminal<WireNode<bool>>`; a wire of
any other type would be reinterpreted (`ubType`). -/
def NodeTerminal.getBool (t : NodeTerminal) (d : CircuitData) : Except Err Bool := do
  let w ← t.get d
  match w.m_value with
  | .vb b => .ok b
  | .vu _ => .error .ubType

/-- Writing `m_value` through a typed terminal; a type mismatch would be a
write through a wrongly-typed pointer (`ubType`). -/
def NodeTerminal.setValue (t : NodeTerminal) (d : CircuitData) (v : Val) :
    Except Err CircuitData := do
  let w ← t.get d
  if w.m_value.tyOf = v.tyOf then
    .ok { d with m_edges := d.m_edges.set t.m_id (some { w with m_value := v }) }
  else
    .error .ubType

/-- `(++m_pc) %= SIZE`: the `uint32_t` increment wraps at `2^32`, then the
compound modulo by the table size is applied. -/
def romPcStep (size pc : Nat) : Nat := ((pc + 1) % 4294967296) % size

/-- The per-kind `process` bodies.  Each reads input wires and updates only
the node's own fields; the printer's `std::cout` write is modelled by
returning the printed value. -/
def Node.process : Node → CircuitData → Except Err (Node × List Val)
  | .constant s t, _ => .ok (.constant s t, [])
  | .andGate a b o v, d => do
      let x ← a.getBool d
      let y ← b.getBool d
      .ok (.andGate a b o (x && y), [])
  | .rom data pc t, _ => .ok (.rom data pc t, [])
  | .printer ty t, d => do
      let w ← t.get d
      if w.m_value.tyOf = ty then
        .ok (.printer ty t, [w.m_value])
      else
        .error .ubType

/-- The per-kind `propagate` bodies.  `m_data[m_pc]` is unchecked
`std::array` indexing (`ubIndex` when out of range). -/
def Node.propagate : Node → CircuitData → Except Err (Node × CircuitData)
  | .constant s t, d => do
      let d' ← t.setValue d (.vb s)
      .ok (.constant s t, d')
  | .andGate a b o v, d => do
      let d' ← o.setValue d (.vb v)
      .ok (.andGate a b o v, d')
  | .rom data pc t, d =>
      match data.get? pc with
      | none => .error .ubIndex
      | some x => do
          let d' ← t.setValue d (.vu x)
          .ok (.rom data (romPcStep data.length pc) t, d')
  | .printer ty t, d => .ok (.printer ty t, d)

/-- One iteration of the `process_all` range-for: skip a null entry,
otherwise run the node's `process` and store the updated node back. -/
def processStep (d : CircuitData) (i : Nat) : Except Err (CircuitData × List Val) :=
  match d.m_nodes.get? i with
  | none => .ok (d, [])
  | some none => .ok (d, [])
  | some (some n) => do
      let (n', out) ← n.process d
      .ok ({ d with m_nodes := d.m_nodes.set i (some n') }, out)

/-- The `process_all` loop over a list of node indices, collecting printed
values. -/
def processGo : List Nat → CircuitData → List Val → Except Err (CircuitData × List Val)
  | [], d, acc => .ok (d, acc)
  | i :: rest, d, acc => do
      let (d', out) ← processStep d i
      processGo rest d' (acc ++ out)

/-- `SysCircuit::process_all`: iterate `process` over `m_nodes` in arena
order. -/
def SysCircuit.process_all (d : CircuitData) : Except Err (CircuitData × List Val) :=
  processGo (List.range d.m_nodes.length) d []

/-- One iteration of the `propagate_all` range-for. -/
def propagateStep (d : CircuitData) (i : Nat) : Except Err CircuitData :=
  match d.m_nodes.get? i with
  | none => .ok d
  | some none => .ok d
  | some (some n) => do
      let (n', d') ← n.propagate d
      .ok { d' with m_nodes := d'.m_nodes.set i (some n') }

/-- The `propagate_all` loop over a list of node indices. -/
def propagateGo : List Nat → CircuitData → Except Err CircuitData
  | [], d => .ok d
  | i :: rest, d => do
      let d' ← propagateStep d i
      propagateGo rest d'

/-- `SysCircuit::propagate_all`: iterate `propagate` over `m_nodes` in
arena order. -/
def SysCircuit.propagate_all (d : CircuitData) : Except Err CircuitData :=
  propagateGo (List.range d.m_nodes.length) d

/-- One clock tick, exactly as the `main` loop body runs it:
`process_all` to completion, then `propagate_all`. -/
def tick (d : CircuitData) : Except Err (CircuitData × List Val) := do
  let (d1, out) ← SysCircuit.process_all d
  let d2 ← SysCircuit.propagate_all d1
  .ok (d2, out)

/-- The `main` clock loop: `n` ticks, concatenating the printed values. -/
def run : Nat → CircuitData → Except Err (CircuitData × List Val)
  | 0, d => .ok (d, [])
  | n + 1, d => do
      let (d1, out1) ← tick d
      let (d2, out2) ← run n d1
      .ok (d2, out1 ++ out2)

/-- `SysCircuit::connect`: take the next edge id, append a freshly
default-constructed wire of the shared type, point both terminals at it,
and record the terminals' parent ids as the wire's endpoints.  The updated
terminals are returned (the C++ mutates them through references). -/
def SysCircuit.connect (ty : VTy) (d : CircuitData) (a b : NodeTerminal) :
    CircuitData × NodeTerminal × NodeTerminal :=
  let id := d.m_edges.length
  let w : WireNode := { m_value := ty.defaultVal, m_in := a.m_parentID, m_out := b.m_parentID }
  ({ d with m_edges := d.m_edges ++ [some w] },
   { a with m_id := id }, { b with m_id := id })

/-- `CircuitData::add`: the new id is the current size, then the node is
appended. -/
def CircuitData.add (d : CircuitData) (n : Node) : CircuitData × Nat :=
  ({ d with m_nodes := d.m_nodes ++ [some n] }, d.m_nodes.length)

/-- Tags for the concrete node kinds, used to state what `get<NODE_T>`'s
caller asked for. -/
inductive NodeKind : Type
  | kConstant
  | kAnd
  | kRom
  | kPrinter
deriving DecidableEq

/-- The kind a stored node actually has. -/
def Node.kind : Node → NodeKind
  | .constant _ _ => .kConstant
  | .andGate _ _ _ _ => .kAnd
  | .rom _ _ _ => .kRom
  | .printer _ _ => .kPrinter

/-- `CircuitData::get<NODE_T>`: `m_nodes.at(id)` (throwing on an
out-of-range id) followed by an unchecked `static_pointer_cast` to the
requested kind.  The cast does not inspect the element, so the requested
kind `k` has no influence on the result: the stored element is returned
whatever its kind. -/
def CircuitData.get (d : CircuitData) (k : NodeKind) (i : Nat) : Except Err (Option Node) :=
  match d.m_nodes.get? i with
  | none => .error .outOfRange
  | some p => .ok p

/-- A freshly constructed arena: one null entry in each collection. -/
def initialCircuit : CircuitData := { m_edges := [none], m_nodes := [none] }

/-- The 16-entry table of the example `main`. -/
def romData16 : List Nat := [0, 1, 2, 3, 4, 5, 6, 7, 8, 9, 10, 11, 12, 13, 14, 15]

/-- The circuit built by the example `main`: printer at node id 1, 16-entry
ROM at node id 2, then `connect(data, rom->m_output, printer->m_input)`
(wire id 1; both parent ids are still the default 0 because `main` never
sets them).  The updated terminals are written back into the two nodes, as
the C++ `connect` does through its references. -/
def mainCircuit : CircuitData :=
  let s0 := initialCircuit.add (.printer .u32 {})
  let s1 := s0.1.add (.rom romData16 0 {})
  let c := SysCircuit.connect .u32 s1.1 {} {}
  { c.1 with
    m_nodes := (c.1.m_nodes.set s1.2 (some (.rom romData16 0 c.2.1))).set s0.2
      (some (.printer .u32 c.2.2)) }

instance {ε α : Type} [DecidableEq ε] [DecidableEq α] : DecidableEq (Except ε α) := fun a b =>
  match a, b with
  | .error x, .error y =>
      if h : x = y then isTrue (by rw [h]) else isFalse fun hc => h (Except.error.inj hc)
  | .ok x, .ok y =>
      if h : x = y then isTrue (by rw [h]) else isFalse fun hc => h (Except.ok.inj hc)
  | .error _, .ok _ => isFalse fun hc => Except.noConfusion hc
  | .ok _, .error _ => isFalse fun hc => Except.noConfusion hc

/-- The observed sequence the spec predicts for 20 ticks of the example. -/
def claimed20 : List Val :=
  [0, 1, 2, 3, 4, 5, 6, 7, 8, 9, 10, 11, 12, 13, 14, 15, 0, 1, 2, 3].map Val.vu

/-- What 20 ticks of the example actually print: the first tick observes
the wire's default value 0, then the table values follow with a one-tick
delay. -/
def actual20 : List Val :=
  [0, 0, 1, 2, 3, 4, 5, 6, 7, 8, 9, 10, 11, 12, 13, 14, 15, 0, 1, 2].map Val.vu

/-- What 36 ticks of the example actually print. -/
def actual36 : List Val :=
  ([0] ++ [0, 1, 2, 3, 4, 5, 6, 7, 8, 9, 10, 11, 12, 13, 14, 15]
    ++ [0, 1, 2, 3, 4, 5, 6, 7, 8, 9, 10, 11, 12, 13, 14, 15] ++ [0, 1, 2]).map Val.vu

/-- An arena holding a single AND gate none of whose terminals was ever
connected: all three terminal ids are still the null id 0. -/
def danglingGate : CircuitData :=
  { m_edges := [none], m_nodes := [none, some (.andGate {} {} {} false)] }

/-- A self-feedback arena: one AND gate whose two inputs and output all
share wire 1, which currently holds `true`. -/
def selfLoop : CircuitData :=
  { m_edges := [none, some { m_value := .vb true, m_in := 1, m_out := 1 }],
    m_nodes := [none, some (.andGate { m_parentID := 1, m_id := 1 }
      { m_parentID := 1, m_id := 1 } { m_parentID := 1, m_id := 1 } false)] }

/-- C3 counterexample: driving the example circuit for 20 ticks does not
print the spec's sequence `0,1,...,15,0,1,2,3`; the first process phase
runs before any propagate, so the first printed value is the wire's
default 0 and everything after is shifted by one tick. -/
theorem mainScenario_not_claimed :
    (run 20 mainCircuit).map Prod.snd ≠ .ok claimed20 := by decide

/-- C3 amended: 20 ticks of the example print
`0,0,1,...,15,0,1,2` (the first tick observes the freshly connected
wire's default value 0, and the table values follow with a one-tick
delay); 36 ticks print `0` followed by `0..15` twice and then `0,1,2`. -/
theorem mainScenario_sequences :
    (run 20 mainCircuit).map Prod.snd = .ok actual20 ∧
    (run 36 mainCircuit).map Prod.snd = .ok actual36 := by
  constructor <;> decide

/-- C4: evaluating a node with an unconnected terminal does not raise a
checked `DanglingTerminal` condition.  The terminal id is still the
reserved null id 0, `m_edges.at(0)` yields the null pointer stored there,
and the evaluation dereferences it: undefined behaviour (`ubNull`), not a
reported error.  Both the process phase and the whole tick die this way. -/
theorem dangling_terminal_is_ub :
    SysCircuit.process_all danglingGate = .error Err.ubNull ∧
    tick danglingGate = .error Err.ubNull := by
  constructor <;> decide

/-- C5: `connect` never checks for an already-attached terminal.
Connecting the same two terminals twice succeeds both times: the first
call attaches them to wire 1; the second silently allocates wire 2 and
rebinds both terminals to it, orphaning wire 1 — no `AlreadyConnected`
failure exists in the code (`connect` is total). -/
theorem connect_silently_rebinds :
    (SysCircuit.connect .u32 initialCircuit {} {}).2.1.m_id = 1 ∧
    (SysCircuit.connect .u32
        (SysCircuit.connect .u32 initialCircuit {} {}).1
        (SysCircuit.connect .u32 initialCircuit {} {}).2.1
        (SysCircuit.connect .u32 initialCircuit {} {}).2.2).2.1.m_id = 2 ∧
    (SysCircuit.connect .u32
        (SysCircuit.connect .u32 initialCircuit {} {}).1
        (SysCircuit.connect .u32 initialCircuit {} {}).2.1
        (SysCircuit.connect .u32 initialCircuit {} {}).2.2).1.m_edges.length = 3 := by
  refine ⟨by decide, by decide, by decide⟩

/-- C9: an out-of-range identity is indeed surfaced (the `.at` call
throws, modelled as `outOfRange`), but resolving a *valid* identity with
the wrong requested kind silently returns the stored element: in the
example arena, asking for node 1 as a ROM yields the printer — the
unchecked `static_pointer_cast` can produce a wrongly-typed reference. -/
theorem get_unchecked_cast :
    mainCircuit.get .kRom 5 = .error Err.outOfRange ∧
    mainCircuit.get .kRom 1 = .ok (some (.printer .u32 { m_parentID := 0, m_id := 1 })) ∧
    (Node.printer .u32 { m_parentID := 0, m_id := 1 }).kind ≠ NodeKind.kRom := by
  refine ⟨by decide, by decide, by decide⟩

/-- C6: connecting two unattached terminals of one value type appends
exactly one wire, whose id is the old edge count, attaches both terminals
to that same id, stores the default value of the shared type in the wire,
records the terminals' parent node ids as the wire's endpoints, and leaves
every previously allocated wire untouched. -/
theorem connect_spec (ty : VTy) (d : CircuitData) (a b : NodeTerminal)
    (ha : a.m_id = 0) (hb : b.m_id = 0) :
    (SysCircuit.connect ty d a b).1.m_edges.length = d.m_edges.length + 1 ∧
    (SysCircuit.connect ty d a b).2.1.m_id = d.m_edges.length ∧
    (SysCircuit.connect ty d a b).2.2.m_id = (SysCircuit.connect ty d a b).2.1.m_id ∧
    (SysCircuit.connect ty d a b).1.m_edges.get? (SysCircuit.connect ty d a b).2.1.m_id =
      some (some { m_value := ty.defaultVal, m_in := a.m_parentID, m_out := b.m_parentID }) ∧
    (ty.defaultVal).tyOf = ty ∧
    (∀ j, j < d.m_edges.length →
      (SysCircuit.connect ty d a b).1.m_edges.get? j = d.m_edges.get? j) ∧
    (SysCircuit.connect ty d a b).2.1.m_parentID = a.m_parentID ∧
    (SysCircuit.connect ty d a b).2.2.m_parentID = b.m_parentID := by
  refine ⟨?_, rfl, rfl, ?_, ?_, ?_, rfl, rfl⟩
  · simp [SysCircuit.connect]
  · simpa [SysCircuit.connect] using
      List.get?_concat_length d.m_edges
        (some { m_value := ty.defaultVal, m_in := a.m_parentID, m_out := b.m_parentID })
  · cases ty <;> rfl
  · intro j hj
    simpa [SysCircuit.connect] using List.get?_append hj

/-- Witness for `connect_spec` at a concrete input: two fresh terminals
with parent ids 2 and 1, connected in the example's arena state. -/
theorem connect_spec_witness :
    (SysCircuit.connect .u32 initialCircuit { m_parentID := 2 } { m_parentID := 1 }).1.m_edges.length
        = initialCircuit.m_edges.length + 1 ∧
    (SysCircuit.connect .u32 initialCircuit { m_parentID := 2 } { m_parentID := 1 }).2.1.m_id
        = initialCircuit.m_edges.length ∧
    (SysCircuit.connect .u32 initialCircuit { m_parentID := 2 } { m_parentID := 1 }).2.2.m_id
        = (SysCircuit.connect .u32 initialCircuit { m_parentID := 2 } { m_parentID := 1 }).2.1.m_id ∧
    (SysCircuit.connect .u32 initialCircuit { m_parentID := 2 } { m_parentID := 1 }).1.m_edges.get?
        (SysCircuit.connect .u32 initialCircuit { m_parentID := 2 } { m_parentID := 1 }).2.1.m_id
        = some (some { m_value := VTy.defaultVal .u32, m_in := 2, m_out := 1 }) ∧
    (VTy.defaultVal .u32).tyOf = .u32 ∧
    (∀ j, j < initialCircuit.m_edges.length →
      (SysCircuit.connect .u32 initialCircuit { m_parentID := 2 } { m_parentID := 1 }).1.m_edges.get? j
        = initialCircuit.m_edges.get? j) ∧
    (SysCircuit.connect .u32 initialCircuit { m_parentID := 2 } { m_parentID := 1 }).2.1.m_parentID = 2 ∧
    (SysCircuit.connect .u32 initialCircuit { m_parentID := 2 } { m_parentID := 1 }).2.2.m_parentID = 1 :=
  connect_spec .u32 initialCircuit { m_parentID := 2 } { m_parentID := 1 } rfl rfl

theorem processStep_edges {d : CircuitData} {i : Nat} {d' : CircuitData} {out : List Val}
    (h : processStep d i = .ok (d', out)) : d'.m_edges = d.m_edges := by
  cases hnode : d.m_nodes.get? i with
  | none =>
    simp only [processStep, hnode] at h
    cases h; rfl
  | some p =>
    cases p with
    | none =>
      simp only [processStep, hnode] at h
      cases h; rfl
    | some n =>
      simp only [processStep, hnode] at h
      cases hp : n.process d with
      | error e => rw [hp] at h; exact Except.noConfusion h
      | ok r =>
        rw [hp] at h
        cases r with
        | mk n' o =>
          have h4 : ({ d with m_nodes := d.m_nodes.set i (some n') } : CircuitData) = d' :=
            congrArg Prod.fst (Except.ok.inj h)
          rw [← h4]

theorem processGo_edges {l : List Nat} :
    ∀ {d : CircuitData} {acc : List Val} {d' : CircuitData} {out : List Val},
      processGo l d acc = .ok (d', out) → d'.m_edges = d.m_edges := by
  induction l with
  | nil => intro d acc d' out h; cases h; rfl
  | cons i rest ih =>
    intro d acc d' out h
    simp only [processGo] at h
    cases hs : processStep d i with
    | error e => rw [hs] at h; exact Except.noConfusion h
    | ok r =>
      rw [hs] at h
      cases r with
      | mk d1 o1 =>
        exact (ih h).trans (processStep_edges hs)

/-- C7: for every node kind and every arena state, a successful process
phase leaves the arena's wire collection exactly as it was — `process`
only reads input wires and stashes results in node-internal state. -/
theorem process_all_frame (d d' : CircuitData) (out : List Val)
    (h : SysCircuit.process_all d = .ok (d', out)) : d'.m_edges = d.m_edges :=
  processGo_edges h

/-- The concrete result of the process phase on the example circuit,
used to witness `process_all_frame`. -/
def mainAfterProcess : CircuitData × List Val :=
  match SysCircuit.process_all mainCircuit with
  | .ok p => p
  | .error _ => (mainCircuit, [])

/-- Witness for `process_all_frame` on the example circuit. -/
theorem process_all_frame_witness :
    SysCircuit.process_all mainCircuit = .ok (mainAfterProcess.1, mainAfterProcess.2) ∧
    mainAfterProcess.1.m_edges = mainCircuit.m_edges :=
  ⟨rfl, process_all_frame mainCircuit mainAfterProcess.1 mainAfterProcess.2 rfl⟩

theorem NodeTerminal.get_congr {d e : CircuitData} (t : NodeTerminal)
    (h : d.m_edges = e.m_edges) : t.get d = t.get e := by
  unfold NodeTerminal.get
  rw [h]

theorem NodeTerminal.getBool_congr {d e : CircuitData} (t : NodeTerminal)
    (h : d.m_edges = e.m_edges) : t.getBool d = t.getBool e := by
  unfold NodeTerminal.getBool
  rw [NodeTerminal.get_congr t h]

theorem Node.process_congr {d e : CircuitData} (n : Node)
    (h : d.m_edges = e.m_edges) : n.process d = n.process e := by
  cases n with
  | constant s t => rfl
  | andGate a b o v =>
    simp only [Node.process]
    rw [NodeTerminal.getBool_congr a h, NodeTerminal.getBool_congr b h]
  | rom data pc t => rfl
  | printer ty t =>
    simp only [Node.process]
    rw [NodeTerminal.get_congr t h]

theorem processStep_spec {d : CircuitData} {i : Nat} {d' : CircuitData} {out : List Val}
    (h : processStep d i = .ok (d', out)) :
    (∀ j, j ≠ i → d'.m_nodes.get? j = d.m_nodes.get? j) ∧
    (∀ n, d.m_nodes.get? i = some (some n) →
      ∃ n', n.process d = .ok (n', out) ∧ d'.m_nodes.get? i = some (some n')) := by
  cases hnode : d.m_nodes.get? i with
  | none =>
    simp only [processStep, hnode] at h
    cases h
    exact ⟨fun j _ => rfl, fun n hn => Option.noConfusion hn⟩
  | some p =>
    cases p with
    | none =>
      simp only [processStep, hnode] at h
      cases h
      exact ⟨fun j _ => rfl,
        fun n hn => Option.noConfusion (Option.some.inj hn)⟩
    | some n0 =>
      simp only [processStep, hnode] at h
      cases hp : n0.process d with
      | error e => rw [hp] at h; exact Except.noConfusion h
      | ok r =>
        rw [hp] at h
        cases r with
        | mk n1 o1 =>
          have hpair := Except.ok.inj h
          have hd : ({ d with m_nodes := d.m_nodes.set i (some n1) } : CircuitData) = d' :=
            congrArg Prod.fst hpair
          have ho : o1 = out := congrArg Prod.snd hpair
          have hlen : i < d.m_nodes.length := by
            by_contra hge
            rw [List.get?_len_le (Nat.le_of_not_lt hge)] at hnode
            cases hnode
          constructor
          · intro j hj
            rw [← hd]
            exact List.get?_set_ne (some n1) d.m_nodes (fun he => hj he.symm)
          · intro n hn
            have hnn : n0 = n := Option.some.inj (Option.some.inj hn)
            subst hnn
            refine ⟨n1, ho ▸ hp, ?_⟩
            rw [← hd]
            exact List.get?_set_eq_of_lt (some n1) hlen

theorem processGo_nodes {l : List Nat} :
    ∀ {d : CircuitData} {acc : List Val} {d' : CircuitData} {out : List Val},
      l.Nodup → processGo l d acc = .ok (d', out) →
      (∀ j, j ∉ l → d'.m_nodes.get? j = d.m_nodes.get? j) ∧
      (∀ i, i ∈ l → ∀ n, d.m_nodes.get? i = some (some n) →
        ∃ n' o, n.process d = .ok (n', o) ∧ d'.m_nodes.get? i = some (some n')) := by
  induction l with
  | nil =>
    intro d acc d' out _ h
    cases h
    exact ⟨fun j _ => rfl, fun i hi => absurd hi (List.not_mem_nil i)⟩
  | cons k rest ih =>
    intro d acc d' out hnd h
    simp only [processGo] at h
    cases hs : processStep d k with
    | error e => rw [hs] at h; exact Except.noConfusion h
    | ok r =>
      rw [hs] at h
      cases r with
      | mk d1 o1 =>
        have hknot : k ∉ rest := (List.nodup_cons.mp hnd).1
        have hrest : rest.Nodup := (List.nodup_cons.mp hnd).2
        have hspec := processStep_spec hs
        have hedges := processStep_edges hs
        have ihres := ih hrest h
        constructor
        · intro j hj
          have hj1 : j ≠ k := fun he => hj (he ▸ List.mem_cons_self k rest)
          have hj2 : j ∉ rest := fun hr => hj (List.mem_cons_of_mem k hr)
          exact (ihres.1 j hj2).trans (hspec.1 j hj1)
        · intro i hi n hn
          rcases List.mem_cons.mp hi with hik | hir
          · subst hik
            obtain ⟨n1, hpn, hd1⟩ := hspec.2 n hn
            refine ⟨n1, o1, hpn, ?_⟩
            rw [ihres.1 i hknot]
            exact hd1
          · have hik : i ≠ k := fun he => hknot (he ▸ hir)
            have hn1 : d1.m_nodes.get? i = some (some n) := (hspec.1 i hik).trans hn
            obtain ⟨n1, o, hpn1, hd'⟩ := ihres.2 i hir n hn1
            exact ⟨n1, o, (Node.process_congr n hedges.symm).trans hpn1, hd'⟩

theorem setValue_nodes {t : NodeTerminal} {d : CircuitData} {v : Val} {d2 : CircuitData}
    (h : t.setValue d v = .ok d2) : d2.m_nodes = d.m_nodes := by
  unfold NodeTerminal.setValue at h
  cases hw : t.get d with
  | error e => rw [hw] at h; exact Except.noConfusion h
  | ok w =>
    rw [hw] at h
    dsimp only [bind, Except.bind] at h
    by_cases hty : w.m_value.tyOf = v.tyOf
    · rw [if_pos hty] at h
      rw [← Except.ok.inj h]
    · rw [if_neg hty] at h
      exact Except.noConfusion h

/-- A successful `propagate` never touches the node collection, and for an
AND gate it returns the node unchanged: a gate's internal `m_outVal` is
set only by `process`. -/
theorem propagate_spec {n : Node} {d : CircuitData} {n' : Node} {d' : CircuitData}
    (h : n.propagate d = .ok (n', d')) :
    d'.m_nodes = d.m_nodes ∧ (∀ a b o v, n = .andGate a b o v → n' = n) := by
  cases n with
  | constant s t =>
    simp only [Node.propagate] at h
    cases hw : t.setValue d (.vb s) with
    | error e => rw [hw] at h; exact Except.noConfusion h
    | ok d2 =>
      rw [hw] at h
      have hpair := Except.ok.inj h
      have hd2 : d2 = d' := congrArg Prod.snd hpair
      refine ⟨?_, fun a b o v hn => by cases hn⟩
      rw [← hd2]
      exact setValue_nodes hw
  | andGate a b o v =>
    simp only [Node.propagate] at h
    cases hw : o.setValue d (.vb v) with
    | error e => rw [hw] at h; exact Except.noConfusion h
    | ok d2 =>
      rw [hw] at h
      have hpair := Except.ok.inj h
      have hd2 : d2 = d' := congrArg Prod.snd hpair
      have hn1 : Node.andGate a b o v = n' := congrArg Prod.fst hpair
      refine ⟨?_, fun a' b' o' v' _ => hn1.symm⟩
      rw [← hd2]
      exact setValue_nodes hw
  | rom data pc t =>
    simp only [Node.propagate] at h
    cases hx : data.get? pc with
    | none => rw [hx] at h; exact Except.noConfusion h
    | some x =>
      rw [hx] at h
      dsimp only [bind, Except.bind] at h
      cases hw : t.setValue d (.vu x) with
      | error e => rw [hw] at h; exact Except.noConfusion h
      | ok d2 =>
        rw [hw] at h
        have hpair := Except.ok.inj h
        have hd2 : d2 = d' := congrArg Prod.snd hpair
        refine ⟨?_, fun a b o v hn => by cases hn⟩
        rw [← hd2]
        exact setValue_nodes hw
  | printer ty t =>
    cases h
    exact ⟨rfl, fun a b o v hn => by cases hn⟩

theorem propagateStep_andGate {d : CircuitData} {i : Nat} {d' : CircuitData}
    (h : propagateStep d i = .ok d') :
    ∀ j a b o v, d.m_nodes.get? j = some (some (.andGate a b o v)) →
      d'.m_nodes.get? j = some (some (.andGate a b o v)) := by
  intro j a b o v hj
  cases hnode : d.m_nodes.get? i with
  | none =>
    simp only [propagateStep, hnode] at h
    rw [← Except.ok.inj h]
    exact hj
  | some p =>
    cases p with
    | none =>
      simp only [propagateStep, hnode] at h
      rw [← Except.ok.inj h]
      exact hj
    | some n0 =>
      simp only [propagateStep, hnode] at h
      cases hp : n0.propagate d with
      | error e => rw [hp] at h; exact Except.noConfusion h
      | ok r =>
        rw [hp] at h
        cases r with
        | mk n1 d2 =>
          have hd : ({ d2 with m_nodes := d2.m_nodes.set i (some n1) } : CircuitData) = d' :=
            Except.ok.inj h
          have hps := propagate_spec hp
          rw [← hd]
          by_cases hij : j = i
          · subst hij
            rw [hnode] at hj
            cases hj
            have hn1 : n1 = Node.andGate a b o v := hps.2 a b o v rfl
            subst hn1
            have hlen : j < d2.m_nodes.length := by
              rw [hps.1]
              by_contra hge
              rw [List.get?_len_le (Nat.le_of_not_lt hge)] at hnode
              cases hnode
            exact List.get?_set_eq_of_lt _ hlen
          · rw [List.get?_set_ne _ d2.m_nodes (fun he => hij he.symm), hps.1]
            exact hj

theorem propagateGo_andGate {l : List Nat} :
    ∀ {d : CircuitData} {d' : CircuitData}, propagateGo l d = .ok d' →
      ∀ j a b o v, d.m_nodes.get? j = some (some (.andGate a b o v)) →
        d'.m_nodes.get? j = some (some (.andGate a b o v)) := by
  induction l with
  | nil =>
    intro d d' h j a b o v hj
    cases h
    exact hj
  | cons k rest ih =>
    intro d d' h j a b o v hj
    simp only [propagateGo] at h
    cases hs : propagateStep d k with
    | error e => rw [hs] at h; exact Except.noConfusion h
    | ok d1 =>
      rw [hs] at h
      exact ih h j a b o v (propagateStep_andGate hs j a b o v hj)

/-- C1: a tick is the complete process phase (which leaves every wire
holding its pre-tick value) followed by the complete propagate phase; as a
consequence, for any consumer gate in any topology — its input terminals
may point at any wires, including the very wire it drives (self-feedback)
— the gate's internal state after the tick is the AND of the wire values
from *before* this tick's propagate: a one-tick propagation delay. -/
theorem tick_phase_order (d d' : CircuitData) (out : List Val)
    (h : tick d = .ok (d', out)) :
    (∃ d1, SysCircuit.process_all d = .ok (d1, out) ∧
      SysCircuit.propagate_all d1 = .ok d' ∧ d1.m_edges = d.m_edges) ∧
    (∀ i a b o v, d.m_nodes.get? i = some (some (.andGate a b o v)) →
      ∃ x y, a.getBool d = .ok x ∧ b.getBool d = .ok y ∧
        d'.m_nodes.get? i = some (some (.andGate a b o (x && y)))) := by
  unfold tick at h
  cases hp : SysCircuit.process_all d with
  | error e => rw [hp] at h; exact Except.noConfusion h
  | ok r =>
    rw [hp] at h
    cases r with
    | mk d1 o1 =>
      dsimp only [bind, Except.bind] at h
      cases hq : SysCircuit.propagate_all d1 with
      | error e => rw [hq] at h; exact Except.noConfusion h
      | ok d2 =>
        rw [hq] at h
        dsimp only [bind, Except.bind] at h
        have hpair := Except.ok.inj h
        have hd2 : d2 = d' := congrArg Prod.fst hpair
        have ho : o1 = out := congrArg Prod.snd hpair
        refine ⟨⟨d1, congrArg (fun z => Except.ok (d1, z)) ho,
          hq.trans (congrArg Except.ok hd2), processGo_edges hp⟩, ?_⟩
        intro i a b o v hi
        have hlen : i < d.m_nodes.length := by
          by_contra hge
          rw [List.get?_len_le (Nat.le_of_not_lt hge)] at hi
          cases hi
        have hnodes := processGo_nodes (List.nodup_range d.m_nodes.length) hp
        obtain ⟨n1, o2, hpn, hd1⟩ :=
          hnodes.2 i (List.mem_range.mpr hlen) (.andGate a b o v) hi
        simp only [Node.process] at hpn
        cases hx : a.getBool d with
        | error e => rw [hx] at hpn; exact Except.noConfusion hpn
        | ok x =>
          rw [hx] at hpn
          dsimp only [bind, Except.bind] at hpn
          cases hy : b.getBool d with
          | error e => rw [hy] at hpn; exact Except.noConfusion hpn
          | ok y =>
            rw [hy] at hpn
            dsimp only [bind, Except.bind] at hpn
            have hn1 : Node.andGate a b o (x && y) = n1 :=
              congrArg Prod.fst (Except.ok.inj hpn)
            refine ⟨x, y, rfl, rfl, ?_⟩
            rw [← hd2]
            exact propagateGo_andGate hq i a b o (x && y) (hn1 ▸ hd1)

/-- The state of the self-feedback example after one tick, for the
`tick_phase_order` witness. -/
def selfLoopAfter : CircuitData × List Val :=
  match tick selfLoop with
  | .ok p => p
  | .error _ => (selfLoop, [])

/-- Witness for `tick_phase_order`: in the self-feedback arena the gate's
state after the tick is `true`, the conjunction of its own wire's pre-tick
value with itself, even though that same wire was rewritten during the
tick's propagate phase. -/
theorem tick_phase_order_witness :
    selfLoopAfter.1.m_nodes.get? 1 = some (some (.andGate { m_parentID := 1, m_id := 1 }
      { m_parentID := 1, m_id := 1 } { m_parentID := 1, m_id := 1 } true)) := by
  obtain ⟨hphase, hgate⟩ := tick_phase_order selfLoop selfLoopAfter.1 selfLoopAfter.2 rfl
  obtain ⟨x, y, hx, hy, hnode⟩ := hgate 1 { m_parentID := 1, m_id := 1 }
    { m_parentID := 1, m_id := 1 } { m_parentID := 1, m_id := 1 } false rfl
  have hxv : true = x := Except.ok.inj hx
  have hyv : true = y := Except.ok.inj hy
  rw [← hxv, ← hyv] at hnode
  exact hnode

/-- A one-ROM arena for the sequencing property: the ROM at node id 1
drives wire 1, which currently holds `v`. -/
def romState (data : List Nat) (pc v : Nat) : CircuitData :=
  { m_edges := [none, some { m_value := .vu v, m_in := 0, m_out := 0 }],
    m_nodes := [none, some (.rom data pc { m_parentID := 0, m_id := 1 })] }

/-- `n` bare propagate passes (no process phase, no intervening `jmp`). -/
def runProp : Nat → CircuitData → Except Err CircuitData
  | 0, d => .ok d
  | n + 1, d => do
      let d' ← SysCircuit.propagate_all d
      runProp n d'

theorem get?_eq_some_getD (l : List Nat) (q : Nat) (h : q < l.length) :
    l.get? q = some (l.getD q 0) := by
  rw [List.getD_eq_get?, List.get?_eq_get h]
  rfl

theorem romPcStep_eq (N q : Nat) (hq : q < N) (hN : N ≤ 4294967296) :
    romPcStep N q = (q + 1) % N := by
  unfold romPcStep
  rcases Nat.lt_or_ge (q + 1) 4294967296 with hlt | hge
  · rw [Nat.mod_eq_of_lt hlt]
  · have h1 : q + 1 = 4294967296 := by omega
    have h2 : N = 4294967296 := by omega
    rw [h1, h2, Nat.mod_self]

theorem rom_propagate_eq (data : List Nat) (q v x : Nat) (hval : data.get? q = some x) :
    Node.propagate (.rom data q { m_parentID := 0, m_id := 1 }) (romState data q v) =
      .ok (.rom data (romPcStep data.length q) { m_parentID := 0, m_id := 1 },
        { m_edges := [none, some { m_value := .vu x, m_in := 0, m_out := 0 }],
          m_nodes := (romState data q v).m_nodes }) := by
  simp only [Node.propagate]
  rw [hval]
  rfl

theorem romState_propagate (data : List Nat) (q v x : Nat) (hval : data.get? q = some x) :
    SysCircuit.propagate_all (romState data q v) =
      .ok (romState data (romPcStep data.length q) x) := by
  have hget : (romState data q v).m_nodes.get? 1 =
      some (some (.rom data q { m_parentID := 0, m_id := 1 })) := rfl
  have hs1 : propagateStep (romState data q v) 1 =
      .ok (romState data (romPcStep data.length q) x) := by
    simp only [propagateStep, hget]
    rw [rom_propagate_eq data q v x hval]
    rfl
  show Except.bind (propagateStep (romState data q v) 1) (fun d2 => propagateGo [] d2) = _
  rw [hs1]
  rfl

theorem runProp_romState (data : List Nat) (hN : data.length ≤ 4294967296) :
    ∀ (k q v : Nat), q < data.length →
      runProp (k + 1) (romState data q v) =
        .ok (romState data ((q + k + 1) % data.length)
          (data.getD ((q + k) % data.length) 0)) := by
  intro k
  induction k with
  | zero =>
    intro q v hq
    have h1 := romState_propagate data q v (data.getD q 0) (get?_eq_some_getD data q hq)
    show Except.bind (SysCircuit.propagate_all (romState data q v))
      (fun d' => runProp 0 d') = _
    rw [h1, romPcStep_eq data.length q hq hN]
    simp only [Nat.add_zero]
    rw [Nat.mod_eq_of_lt hq]
    rfl
  | succ k ih =>
    intro q v hq
    have hN0 : 0 < data.length := Nat.lt_of_le_of_lt (Nat.zero_le q) hq
    have h1 := romState_propagate data q v (data.getD q 0) (get?_eq_some_getD data q hq)
    show Except.bind (SysCircuit.propagate_all (romState data q v))
      (fun d' => runProp (k + 1) d') = _
    rw [h1, romPcStep_eq data.length q hq hN]
    show runProp (k + 1) (romState data ((q + 1) % data.length) (data.getD q 0)) = _
    rw [ih ((q + 1) % data.length) (data.getD q 0) (Nat.mod_lt _ hN0)]
    have e1 : ((q + 1) % data.length + k + 1) % data.length =
        (q + (k + 1) + 1) % data.length := by
      rw [Nat.add_assoc, Nat.mod_add_mod]
      have e : q + 1 + (k + 1) = q + (k + 1) + 1 := by omega
      rw [e]
    have e2 : ((q + 1) % data.length + k) % data.length =
        (q + (k + 1)) % data.length := by
      rw [Nat.mod_add_mod]
      have e : q + 1 + k = q + (k + 1) := by omega
      rw [e]
    rw [e1, e2]

/-- C2: on the one-ROM arena, a single propagate writes the table value at
the current position `p` to the output wire and advances the position to
`(p+1) mod N`; after exactly `N` propagate calls with no intervening jump
the position is back at its starting value `p`, and the `(N+1)`-th call
writes the first output value `data[p]` again.  (The position is a
`uint32_t`, so the table is assumed to fit 32-bit indexing.) -/
theorem rom_sequencing (data : List Nat) (p v0 : Nat)
    (hp : p < data.length) (hN : data.length ≤ 4294967296) :
    runProp 1 (romState data p v0) =
      .ok (romState data ((p + 1) % data.length) (data.getD p 0)) ∧
    runProp data.length (romState data p v0) =
      .ok (romState data p (data.getD ((p + data.length - 1) % data.length) 0)) ∧
    runProp (data.length + 1) (romState data p v0) =
      .ok (romState data ((p + 1) % data.length) (data.getD p 0)) := by
  have hN0 : 0 < data.length := Nat.lt_of_le_of_lt (Nat.zero_le p) hp
  refine ⟨?_, ?_, ?_⟩
  · rw [runProp_romState data hN 0 p v0 hp]
    simp only [Nat.add_zero]
    rw [Nat.mod_eq_of_lt hp]
  · have hk := runProp_romState data hN (data.length - 1) p v0 hp
    have hsub : data.length - 1 + 1 = data.length := Nat.succ_pred_eq_of_pos hN0
    rw [hsub] at hk
    rw [hk]
    have e1 : p + (data.length - 1) + 1 = p + data.length := by omega
    have e2 : p + (data.length - 1) = p + data.length - 1 := by omega
    rw [e1, e2, Nat.add_mod_right, Nat.mod_eq_of_lt hp]
  · have hk := runProp_romState data hN data.length p v0 hp
    rw [hk]
    have e1 : p + data.length + 1 = p + 1 + data.length := by omega
    rw [e1, Nat.add_mod_right, Nat.add_mod_right, Nat.mod_eq_of_lt hp]

/-- Witness for `rom_sequencing` on a 3-entry table starting at position 1:
one propagate writes 20 and moves to position 2; three propagates return to
position 1 having last written `data[0] = 10`; the fourth call reproduces
the first output 20. -/
theorem rom_sequencing_witness :
    runProp 1 (romState [10, 20, 30] 1 7) = .ok (romState [10, 20, 30] 2 20) ∧
    runProp 3 (romState [10, 20, 30] 1 7) = .ok (romState [10, 20, 30] 1 10) ∧
    runProp 4 (romState [10, 20, 30] 1 7) = .ok (romState [10, 20, 30] 2 20) :=
  rom_sequencing [10, 20, 30] 1 7 (by decide) (by decide)

/-- What append-only means for the two arena collections: counts never
decrease, the reserved null slots stay null, and every allocated slot
stays allocated at the same identity. -/
def Mono (d d' : CircuitData) : Prop :=
  d.m_nodes.length ≤ d'.m_nodes.length ∧
  d.m_edges.length ≤ d'.m_edges.length ∧
  (∀ j, d.m_nodes.get? j = some none → d'.m_nodes.get? j = some none) ∧
  (∀ j, d.m_edges.get? j = some none → d'.m_edges.get? j = some none) ∧
  (∀ j n, d.m_nodes.get? j = some (some n) → ∃ n2, d'.m_nodes.get? j = some (some n2)) ∧
  (∀ j w, d.m_edges.get? j = some (some w) → ∃ w2, d'.m_edges.get? j = some (some w2))

theorem Mono.rfl (d : CircuitData) : Mono d d :=
  ⟨le_refl _, le_refl _, fun _ h => h, fun _ h => h,
    fun _ n h => ⟨n, h⟩, fun _ w h => ⟨w, h⟩⟩

theorem Mono.trans {a b c : CircuitData} (h1 : Mono a b) (h2 : Mono b c) : Mono a c := by
  obtain ⟨l1, l2, z1, z2, s1, s2⟩ := h1
  obtain ⟨m1, m2, y1, y2, t1, t2⟩ := h2
  refine ⟨Nat.le_trans l1 m1, Nat.le_trans l2 m2,
    fun j h => y1 j (z1 j h), fun j h => y2 j (z2 j h), ?_, ?_⟩
  · intro j n h
    obtain ⟨n2, h2⟩ := s1 j n h
    exact t1 j n2 h2
  · intro j w h
    obtain ⟨w2, h2⟩ := s2 j w h
    exact t2 j w2 h2

theorem get?_append_some {α : Type} {l : List α} {j : Nat} {y : α}
    (h : l.get? j = some y) (l2 : List α) : (l ++ l2).get? j = some y := by
  have hj : j < l.length := by
    by_contra hge
    rw [List.get?_len_le (Nat.le_of_not_lt hge)] at h
    cases h
  rw [List.get?_append hj]
  exact h

theorem get?_some_lt {α : Type} {l : List α} {j : Nat} {y : α}
    (h : l.get? j = some y) : j < l.length := by
  by_contra hge
  rw [List.get?_len_le (Nat.le_of_not_lt hge)] at h
  cases h

theorem Mono_set_node {d : CircuitData} {i : Nat} {n : Node} (n' : Node)
    (h : d.m_nodes.get? i = some (some n)) :
    Mono d { d with m_nodes := d.m_nodes.set i (some n') } := by
  refine ⟨by rw [List.length_set], le_refl _, ?_, fun _ hz => hz, ?_, fun _ w hw => ⟨w, hw⟩⟩
  · intro j hz
    by_cases hij : j = i
    · subst hij
      rw [hz] at h
      cases Option.some.inj h
    · exact (List.get?_set_ne _ d.m_nodes (fun he => hij he.symm)).trans hz
  · intro j m hm
    by_cases hij : j = i
    · subst hij
      exact ⟨n', List.get?_set_eq_of_lt _ (get?_some_lt h)⟩
    · exact ⟨m, (List.get?_set_ne _ d.m_nodes (fun he => hij he.symm)).trans hm⟩

theorem Mono_set_edge {d : CircuitData} {i : Nat} {w : WireNode} (w' : WireNode)
    (h : d.m_edges.get? i = some (some w)) :
    Mono d { d with m_edges := d.m_edges.set i (some w') } := by
  refine ⟨le_refl _, by rw [List.length_set], fun _ hz => hz, ?_, fun _ n hn => ⟨n, hn⟩, ?_⟩
  · intro j hz
    by_cases hij : j = i
    · subst hij
      rw [hz] at h
      cases Option.some.inj h
    · exact (List.get?_set_ne _ d.m_edges (fun he => hij he.symm)).trans hz
  · intro j m hm
    by_cases hij : j = i
    · subst hij
      exact ⟨w', List.get?_set_eq_of_lt _ (get?_some_lt h)⟩
    · exact ⟨m, (List.get?_set_ne _ d.m_edges (fun he => hij he.symm)).trans hm⟩

theorem terminal_get_ok {t : NodeTerminal} {d : CircuitData} {w : WireNode}
    (h : t.get d = .ok w) : d.m_edges.get? t.m_id = some (some w) := by
  unfold NodeTerminal.get at h
  cases hg : d.m_edges.get? t.m_id with
  | none => rw [hg] at h; exact Except.noConfusion h
  | some p =>
    cases p with
    | none => rw [hg] at h; exact Except.noConfusion h
    | some w0 =>
      rw [hg] at h
      rw [Except.ok.inj h]

theorem setValue_mono {t : NodeTerminal} {d : CircuitData} {v : Val} {d2 : CircuitData}
    (h : t.setValue d v = .ok d2) : Mono d d2 := by
  unfold NodeTerminal.setValue at h
  cases hw : t.get d with
  | error e => rw [hw] at h; exact Except.noConfusion h
  | ok w =>
    rw [hw] at h
    dsimp only [bind, Except.bind] at h
    by_cases hty : w.m_value.tyOf = v.tyOf
    · rw [if_pos hty] at h
      rw [← Except.ok.inj h]
      exact Mono_set_edge _ (terminal_get_ok hw)
    · rw [if_neg hty] at h
      exact Except.noConfusion h

theorem propagate_mono {n : Node} {d : CircuitData} {n' : Node} {d' : CircuitData}
    (h : n.propagate d = .ok (n', d')) : Mono d d' := by
  cases n with
  | constant s t =>
    simp only [Node.propagate] at h
    cases hw : t.setValue d (.vb s) with
    | error e => rw [hw] at h; exact Except.noConfusion h
    | ok d2 =>
      rw [hw] at h
      have hd2 : d2 = d' := congrArg Prod.snd (Except.ok.inj h)
      exact hd2 ▸ setValue_mono hw
  | andGate a b o v =>
    simp only [Node.propagate] at h
    cases hw : o.setValue d (.vb v) with
    | error e => rw [hw] at h; exact Except.noConfusion h
    | ok d2 =>
      rw [hw] at h
      have hd2 : d2 = d' := congrArg Prod.snd (Except.ok.inj h)
      exact hd2 ▸ setValue_mono hw
  | rom data pc t =>
    simp only [Node.propagate] at h
    cases hx : data.get? pc with
    | none => rw [hx] at h; exact Except.noConfusion h
    | some x =>
      rw [hx] at h
      dsimp only [bind, Except.bind] at h
      cases hw : t.setValue d (.vu x) with
      | error e => rw [hw] at h; exact Except.noConfusion h
      | ok d2 =>
        rw [hw] at h
        have hd2 : d2 = d' := congrArg Prod.snd (Except.ok.inj h)
        exact hd2 ▸ setValue_mono hw
  | printer ty t =>
    cases h
    exact Mono.rfl d

theorem propagateStep_mono {d : CircuitData} {i : Nat} {d' : CircuitData}
    (h : propagateStep d i = .ok d') : Mono d d' := by
  cases hnode : d.m_nodes.get? i with
  | none =>
    simp only [propagateStep, hnode] at h
    rw [← Except.ok.inj h]
    exact Mono.rfl d
  | some p =>
    cases p with
    | none =>
      simp only [propagateStep, hnode] at h
      rw [← Except.ok.inj h]
      exact Mono.rfl d
    | some n0 =>
      simp only [propagateStep, hnode] at h
      cases hp : n0.propagate d with
      | error e => rw [hp] at h; exact Except.noConfusion h
      | ok r =>
        rw [hp] at h
        cases r with
        | mk n1 d2 =>
          have hd : ({ d2 with m_nodes := d2.m_nodes.set i (some n1) } : CircuitData) = d' :=
            Except.ok.inj h
          have hps := propagate_spec hp
          have hn2 : d2.m_nodes.get? i = some (some n0) := by rw [hps.1]; exact hnode
          rw [← hd]
          exact (propagate_mono hp).trans (Mono_set_node n1 hn2)

theorem propagateGo_mono {l : List Nat} :
    ∀ {d d' : CircuitData}, propagateGo l d = .ok d' → Mono d d' := by
  induction l with
  | nil =>
    intro d d' h
    rw [← Except.ok.inj h]
    exact Mono.rfl d
  | cons k rest ih =>
    intro d d' h
    simp only [propagateGo] at h
    cases hs : propagateStep d k with
    | error e => rw [hs] at h; exact Except.noConfusion h
    | ok d1 =>
      rw [hs] at h
      exact (propagateStep_mono hs).trans (ih h)

theorem processStep_mono {d : CircuitData} {i : Nat} {d' : CircuitData} {out : List Val}
    (h : processStep d i = .ok (d', out)) : Mono d d' := by
  cases hnode : d.m_nodes.get? i with
  | none =>
    simp only [processStep, hnode] at h
    have : d = d' := congrArg Prod.fst (Except.ok.inj h)
    rw [← this]
    exact Mono.rfl d
  | some p =>
    cases p with
    | none =>
      simp only [processStep, hnode] at h
      have : d = d' := congrArg Prod.fst (Except.ok.inj h)
      rw [← this]
      exact Mono.rfl d
    | some n0 =>
      simp only [processStep, hnode] at h
      cases hp : n0.process d with
      | error e => rw [hp] at h; exact Except.noConfusion h
      | ok r =>
        rw [hp] at h
        cases r with
        | mk n1 o1 =>
          have hd : ({ d with m_nodes := d.m_nodes.set i (some n1) } : CircuitData) = d' :=
            congrArg Prod.fst (Except.ok.inj h)
          rw [← hd]
          exact Mono_set_node n1 hnode

theorem processGo_mono {l : List Nat} :
    ∀ {d : CircuitData} {acc : List Val} {d' : CircuitData} {out : List Val},
      processGo l d acc = .ok (d', out) → Mono d d' := by
  induction l with
  | nil =>
    intro d acc d' out h
    have : d = d' := congrArg Prod.fst (Except.ok.inj h)
    rw [← this]
    exact Mono.rfl d
  | cons k rest ih =>
    intro d acc d' out h
    simp only [processGo] at h
    cases hs : processStep d k with
    | error e => rw [hs] at h; exact Except.noConfusion h
    | ok r =>
      rw [hs] at h
      cases r with
      | mk d1 o1 =>
        exact (processStep_mono hs).trans (ih h)

theorem tick_mono {d d' : CircuitData} {out : List Val}
    (h : tick d = .ok (d', out)) : Mono d d' := by
  unfold tick at h
  cases hp : SysCircuit.process_all d with
  | error e => rw [hp] at h; exact Except.noConfusion h
  | ok r =>
    rw [hp] at h
    cases r with
    | mk d1 o1 =>
      dsimp only [bind, Except.bind] at h
      cases hq : SysCircuit.propagate_all d1 with
      | error e => rw [hq] at h; exact Except.noConfusion h
      | ok d2 =>
        rw [hq] at h
        dsimp only [bind, Except.bind] at h
        have hd2 : d2 = d' := congrArg Prod.fst (Except.ok.inj h)
        exact (processGo_mono hp).trans (hd2 ▸ propagateGo_mono hq)

/-- The operations a driver can perform on the arena: allocating a node,
connecting two terminals (which allocates a wire), writing an updated
node — e.g. its terminals after a connect — back into its slot, and
running a tick. -/
inductive Step : CircuitData → CircuitData → Prop
  | add (d : CircuitData) (n : Node) : Step d (d.add n).1
  | connect (ty : VTy) (d : CircuitData) (a b : NodeTerminal) :
      Step d (SysCircuit.connect ty d a b).1
  | setNode (d : CircuitData) (i : Nat) (n n' : Node) :
      d.m_nodes.get? i = some (some n) →
      Step d { d with m_nodes := d.m_nodes.set i (some n') }
  | tick (d d' : CircuitData) (out : List Val) :
      tick d = .ok (d', out) → Step d d'

theorem Step_mono {d d' : CircuitData} (h : Step d d') : Mono d d' := by
  cases h with
  | add d n =>
    refine ⟨?_, le_refl _, fun j hz => get?_append_some hz _,
      fun _ hz => hz, fun j m hm => ⟨m, get?_append_some hm _⟩, fun _ w hw => ⟨w, hw⟩⟩
    show d.m_nodes.length ≤ (d.m_nodes ++ [some n]).length
    rw [List.length_append]
    exact Nat.le_add_right _ _
  | connect ty d a b =>
    refine ⟨le_refl _, ?_, fun _ hz => hz, fun j hz => get?_append_some hz _,
      fun _ m hm => ⟨m, hm⟩, fun j w hw => ⟨w, get?_append_some hw _⟩⟩
    show d.m_edges.length ≤ (d.m_edges ++ [_]).length
    rw [List.length_append]
    exact Nat.le_add_right _ _
  | setNode d i n n' hn => exact Mono_set_node n' hn
  | tick d d' out ht => exact tick_mono ht

/-- C8: across any sequence of arena operations the arena is append-only —
node and wire counts never decrease, the reserved null slot 0 of each
collection stays null, and every allocated identity keeps referring to an
allocated element; moreover a fresh arena reserves index 0 in both
collections, node allocation returns exactly the append position as the
new identity, and connect appends exactly one wire at the returned
position. -/
theorem arena_append_only :
    (∀ d d' : CircuitData, Relation.ReflTransGen Step d d' → Mono d d') ∧
    (initialCircuit.m_nodes.get? 0 = some none ∧
      initialCircuit.m_edges.get? 0 = some none) ∧
    (∀ (d : CircuitData) (n : Node), (d.add n).2 = d.m_nodes.length ∧
      (d.add n).1.m_nodes = d.m_nodes ++ [some n] ∧
      (d.add n).1.m_edges = d.m_edges) ∧
    (∀ ty (d : CircuitData) (a b : NodeTerminal),
      (SysCircuit.connect ty d a b).1.m_edges =
        d.m_edges ++ [some (WireNode.mk ty.defaultVal a.m_parentID b.m_parentID)] ∧
      (SysCircuit.connect ty d a b).1.m_nodes = d.m_nodes) := by
  refine ⟨?_, ⟨rfl, rfl⟩, fun d n => ⟨rfl, rfl, rfl⟩, fun ty d a b => ⟨rfl, rfl⟩⟩
  intro d d' h
  induction h with
  | refl => exact Mono.rfl d
  | tail hsteps hstep ih => exact ih.trans (Step_mono hstep)

/-- Witness for `arena_append_only`: a concrete three-operation sequence —
add the printer, add the ROM, connect — starting from a fresh arena. -/
theorem arena_append_only_witness :
    Mono initialCircuit
      (SysCircuit.connect .u32
        (((initialCircuit.add (.printer .u32 {})).1.add (.rom romData16 0 {})).1) {} {}).1 :=
  arena_append_only.1 _ _
    (Relation.ReflTransGen.trans
      (Relation.ReflTransGen.trans
        (Relation.ReflTransGen.single (Step.add initialCircuit (.printer .u32 {})))
        (Relation.ReflTransGen.single
          (Step.add (initialCircuit.add (.printer .u32 {})).1 (.rom romData16 0 {}))))
      (Relation.ReflTransGen.single
        (Step.connect .u32
          ((initialCircuit.add (.printer .u32 {})).1.add (.rom romData16 0 {})).1 {} {})))

/-- C10: the wire allocated by `connect` is value-initialised — it holds
the default value of its value type (`false` for bool, `0` for uint32) —
and a consumer whose input wire still holds that default observes exactly
the default in its process phase; concretely, the example's very first
tick prints 0, the fresh wire's default, not a value the ROM computed. -/
theorem fresh_wire_default :
    (∀ ty (d : CircuitData) (a b : NodeTerminal),
      (SysCircuit.connect ty d a b).1.m_edges.get? d.m_edges.length =
        some (some (WireNode.mk ty.defaultVal a.m_parentID b.m_parentID))) ∧
    VTy.defaultVal .bool = .vb false ∧
    VTy.defaultVal .u32 = .vu 0 ∧
    (∀ (d : CircuitData) ty (t : NodeTerminal) (pi po : Nat),
      d.m_edges.get? t.m_id = some (some (WireNode.mk ty.defaultVal pi po)) →
      (Node.printer ty t).process d = .ok (.printer ty t, [ty.defaultVal])) ∧
    (run 1 mainCircuit).map Prod.snd = .ok [Val.vu 0] := by
  refine ⟨?_, rfl, rfl, ?_, by decide⟩
  · intro ty d a b
    simpa [SysCircuit.connect] using
      List.get?_concat_length d.m_edges
        (some (WireNode.mk ty.defaultVal a.m_parentID b.m_parentID))
  · intro d ty t pi po hw
    cases ty with
    | bool =>
      simp only [Node.process, NodeTerminal.get, hw]
      rfl
    | u32 =>
      simp only [Node.process, NodeTerminal.get, hw]
      rfl

/-- Witness for `fresh_wire_default`: the example's printer, processed
against the freshly connected arena, observes the default value 0. -/
theorem fresh_wire_default_witness :
    (Node.printer .u32 { m_parentID := 0, m_id := 1 }).process mainCircuit =
      .ok (.printer .u32 { m_parentID := 0, m_id := 1 }, [VTy.defaultVal .u32]) :=
  fresh_wire_default.2.2.2.1 mainCircuit .u32 { m_parentID := 0, m_id := 1 } 0 0 rfl

end GraphCircuits
